import Mathlib

/-!
Verification of the classifier and profile synthesizer of
`scripts/add-all-profiles.py` (moodboardlab repository).

The script's meaningful logic is embedded shallowly:

* `classify_material` mirrors the Python function of the same name: the
  material's name, description and keywords are concatenated (separated by
  single spaces), lowercased, and tested against an ordered sequence of
  keyword rules with first-match-wins; the default category is `"concrete"`.
  Each Python rule is `re.search(r'p1|p2|...', text)` where every
  alternative is a literal (no regex metacharacters occur in any pattern),
  so a rule matches exactly when some literal pattern occurs as a substring
  of the text; this is embedded by `searchAny` / `sub` below.
* `PROFILES` mirrors the static category-to-lifecycle-profile table.
* `format_profile` mirrors the Python f-string that renders a profile as a
  TypeScript record.
* Python's `str.lower()` is modelled by mapping `Char.toLower` over the
  characters (faithful on the ASCII range, which covers every pattern).
-/

abbrev Chars := List Char

/-- Substring test on character lists: `sub p t` is true iff `p` occurs
contiguously somewhere in `t` (the semantics of `re.search` with a literal
pattern). -/
def sub (p : Chars) : Chars → Bool
  | [] => p.isPrefixOf []
  | c :: t => p.isPrefixOf (c :: t) || sub p t

/-- Embedding of `re.search(r'p1|p2|...', text)` for literal alternatives:
true iff some pattern of the list occurs as a substring of the text. -/
def searchAny (pats : List String) (t : Chars) : Bool :=
  pats.any (fun p => sub p.data t)

/-- Embedding of Python's `' '.join`: interleave a single space between the
elements. -/
def joinSp : List Chars → Chars
  | [] => []
  | [k] => k
  | k :: k2 :: ks => k ++ ' ' :: joinSp (k2 :: ks)

/-- The text blob built by `classify_material`:
`f"{name} {desc} {' '.join(keywords)}".lower()`. -/
def blob (name desc : String) (keywords : List String) : Chars :=
  (name.data ++ ' ' :: desc.data ++ ' ' :: joinSp (keywords.map String.data)).map Char.toLower

def timberPats : List String := ["timber", "wood", "oak", "bamboo", "larch", "cedar", "plywood"]
def metalPats : List String := ["steel", "aluminum", "aluminium", "metal", "brass", "copper", "zinc"]
def concretePats : List String := ["concrete", "cement", "microcement"]
def glassPats : List String := ["glass", "glazing"]
def ceramicPats : List String := ["ceramic", "terracotta", "porcelain", "clay", "brick", "tile"]
def plasticPats : List String := ["plastic", "vinyl", "upvc", "composite", "grp", "pet", "epoxy", "resin"]
def biobasedPats : List String := ["hemp", "cork", "mycelium", "bio-based", "biobased", "wool", "felt"]
def earthPats : List String := ["earth", "rammed", "lime", "plaster", "render"]
def stonePats : List String := ["stone", "marble", "granite", "slate", "travertine"]
def textilePats : List String := ["fabric", "textile", "carpet", "leather", "upholster"]
def paintPats : List String := ["paint", "emulsion"]

/-- Embedding of `classify_material(name, desc, keywords)`: the ordered
if-chain of the Python source, in source order, defaulting to
`"concrete"`. -/
def classify_material (name desc : String) (keywords : List String) : String :=
  let text := blob name desc keywords
  if searchAny timberPats text then "timber"
  else if searchAny metalPats text then "metal"
  else if searchAny concretePats text then "concrete"
  else if searchAny glassPats text then "glass"
  else if searchAny ceramicPats text then "ceramic"
  else if searchAny plasticPats text then "plastic"
  else if searchAny biobasedPats text then "biobased"
  else if searchAny earthPats text then "earth"
  else if searchAny stonePats text then "stone"
  else if searchAny textilePats text then "textile"
  else if searchAny paintPats text then "paint"
  else "concrete"

/-- The classifier's rule list, in the exact source order, as
(patterns, category) pairs. -/
def RULES : List (List String × String) :=
  [ (timberPats, "timber"), (metalPats, "metal"), (concretePats, "concrete"),
    (glassPats, "glass"), (ceramicPats, "ceramic"), (plasticPats, "plastic"),
    (biobasedPats, "biobased"), (earthPats, "earth"), (stonePats, "stone"),
    (textilePats, "textile"), (paintPats, "paint") ]

/-- First-match-wins evaluation of a rule list, defaulting to
`"concrete"`. -/
def classifyFirst : List (List String × String) → Chars → String
  | [], _ => "concrete"
  | (pats, cat) :: rest, t => if searchAny pats t then cat else classifyFirst rest t

/-- An impact rating: score paired with a confidence label. -/
structure Rating where
  impact : Nat
  confidence : String
deriving DecidableEq

/-- A lifecycle profile: one rating per phase. -/
structure Profile where
  raw : Rating
  manufacturing : Rating
  transport : Rating
  installation : Rating
  inUse : Rating
  maintenance : Rating
  endOfLife : Rating
deriving DecidableEq

/-- The static `PROFILES` table of the script, in source order. -/
def PROFILES : List (String × Profile) :=
  [ ("timber", ⟨⟨1, "high"⟩, ⟨2, "high"⟩, ⟨2, "medium"⟩, ⟨2, "high"⟩, ⟨1, "high"⟩, ⟨2, "medium"⟩, ⟨1, "high"⟩⟩),
    ("ceramic", ⟨⟨2, "high"⟩, ⟨5, "high"⟩, ⟨3, "medium"⟩, ⟨2, "high"⟩, ⟨1, "high"⟩, ⟨1, "high"⟩, ⟨2, "medium"⟩⟩),
    ("metal", ⟨⟨5, "high"⟩, ⟨5, "high"⟩, ⟨3, "medium"⟩, ⟨2, "high"⟩, ⟨1, "high"⟩, ⟨1, "high"⟩, ⟨1, "high"⟩⟩),
    ("concrete", ⟨⟨3, "high"⟩, ⟨5, "high"⟩, ⟨3, "medium"⟩, ⟨3, "high"⟩, ⟨1, "high"⟩, ⟨1, "high"⟩, ⟨3, "medium"⟩⟩),
    ("glass", ⟨⟨3, "high"⟩, ⟨4, "high"⟩, ⟨3, "medium"⟩, ⟨2, "high"⟩, ⟨1, "high"⟩, ⟨1, "high"⟩, ⟨3, "medium"⟩⟩),
    ("plastic", ⟨⟨4, "high"⟩, ⟨4, "high"⟩, ⟨2, "medium"⟩, ⟨1, "high"⟩, ⟨1, "high"⟩, ⟨1, "high"⟩, ⟨4, "low"⟩⟩),
    ("earth", ⟨⟨1, "high"⟩, ⟨1, "high"⟩, ⟨1, "high"⟩, ⟨2, "medium"⟩, ⟨1, "high"⟩, ⟨1, "high"⟩, ⟨1, "high"⟩⟩),
    ("stone", ⟨⟨3, "high"⟩, ⟨3, "high"⟩, ⟨4, "medium"⟩, ⟨2, "high"⟩, ⟨1, "high"⟩, ⟨1, "high"⟩, ⟨2, "medium"⟩⟩),
    ("textile", ⟨⟨2, "medium"⟩, ⟨3, "medium"⟩, ⟨2, "medium"⟩, ⟨1, "high"⟩, ⟨1, "high"⟩, ⟨2, "medium"⟩, ⟨2, "low"⟩⟩),
    ("biobased", ⟨⟨1, "high"⟩, ⟨1, "high"⟩, ⟨2, "medium"⟩, ⟨2, "medium"⟩, ⟨1, "high"⟩, ⟨1, "high"⟩, ⟨1, "high"⟩⟩),
    ("paint", ⟨⟨3, "medium"⟩, ⟨3, "medium"⟩, ⟨2, "medium"⟩, ⟨2, "medium"⟩, ⟨1, "high"⟩, ⟨2, "medium"⟩, ⟨2, "low"⟩⟩) ]

/-- One rendered phase line of `format_profile`
(`    label: { impact: N, confidence: 'C' }`). -/
def fmtRating (label : String) (r : Rating) : String :=
  "    " ++ label ++ ": \x7b impact: " ++ toString r.impact ++ ", confidence: \x27" ++ r.confidence ++ "\x27 \x7d"

/-- Embedding of `format_profile(mat_id, profile)`: the exact TypeScript
text produced by the Python f-string. -/
def format_profile (mat_id : String) (p : Profile) : String :=
  "  \x27" ++ mat_id ++ "\x27: \x7b\n" ++
  fmtRating "raw" p.raw ++ ",\n" ++
  fmtRating "manufacturing" p.manufacturing ++ ",\n" ++
  fmtRating "transport" p.transport ++ ",\n" ++
  fmtRating "installation" p.installation ++ ",\n" ++
  fmtRating "inUse" p.inUse ++ ",\n" ++
  fmtRating "maintenance" p.maintenance ++ ",\n" ++
  fmtRating "endOfLife" p.endOfLife ++ "\n  \x7d"

/-- Embedding of the dict lookup `table[mat_type]`: `none` models the
`KeyError` raised on a missing key. -/
def lookupIn (table : List (String × Profile)) (c : String) : Option Profile :=
  match table.find? (fun e => e.1 == c) with
  | some e => some e.2
  | none => none

/-- Lookup in the script's actual `PROFILES` table. -/
def lookupProfile (c : String) : Option Profile :=
  lookupIn PROFILES c

/-- Leading-space stripper used by the rendered-record reader. -/
def dropSpaces : Chars → Chars
  | [] => []
  | c :: t => if c = ' ' then dropSpaces t else c :: t

/-- Splits off the characters before the first occurrence of `stop`;
`none` when `stop` does not occur. -/
def takeUntilChar (stop : Char) : Chars → Option (Chars × Chars)
  | [] => none
  | c :: t =>
    if c = stop then some ([], t)
    else
      match takeUntilChar stop t with
      | none => none
      | some (pre, post) => some (c :: pre, post)

/-- Removes an expected literal from the front; `none` when the text does
not start with it. -/
def stripPre : Chars → Chars → Option Chars
  | [], t => some t
  | _ :: _, [] => none
  | p :: ps, c :: t => if p = c then stripPre ps t else none

/-- Reads a leading run of decimal digits into a number. -/
def readNatAux : Chars → Nat → Nat × Chars
  | [], acc => (acc, [])
  | c :: t, acc => if c.isDigit then readNatAux t (acc * 10 + (c.toNat - 48)) else (acc, c :: t)

/-- Reads one rendered phase line
`    label: { impact: N, confidence: 'C' }` back into
(label, impact, confidence); `none` for lines of any other shape (the
record's header and footer lines). -/
def parseLine (line : Chars) : Option (String × Nat × String) :=
  match takeUntilChar ':' (dropSpaces line) with
  | none => none
  | some (nm, rest) =>
    match stripPre " \x7b impact: ".data rest with
    | none => none
    | some r2 =>
      match r2 with
      | [] => none
      | c :: _ =>
        if c.isDigit then
          let nr := readNatAux r2 0
          match stripPre ", confidence: \x27".data nr.2 with
          | none => none
          | some r4 =>
            match takeUntilChar '\x27' r4 with
            | none => none
            | some (conf, _) => some (⟨nm⟩, nr.1, ⟨conf⟩)
        else none

/-- Splits a character list on a separator (every field kept, empty fields
included). -/
def splitOnChar (sep : Char) : Chars → List Chars
  | [] => [[]]
  | c :: t =>
    if c = sep then [] :: splitOnChar sep t
    else
      match splitOnChar sep t with
      | [] => [[c]]
      | l :: ls => (c :: l) :: ls

/-- Reads a rendered TypeScript record back into its list of
(phase, impact, confidence) triples, line by line. -/
def extractPhases (s : String) : List (String × Nat × String) :=
  (splitOnChar '\n' s.data).filterMap parseLine

/-- The (phase, impact, confidence) triples of a profile, in the script's
fixed phase order. -/
def phaseReadings (p : Profile) : List (String × Nat × String) :=
  [("raw", p.raw.impact, p.raw.confidence),
   ("manufacturing", p.manufacturing.impact, p.manufacturing.confidence),
   ("transport", p.transport.impact, p.transport.confidence),
   ("installation", p.installation.impact, p.installation.confidence),
   ("inUse", p.inUse.impact, p.inUse.confidence),
   ("maintenance", p.maintenance.impact, p.maintenance.confidence),
   ("endOfLife", p.endOfLife.impact, p.endOfLife.confidence)]

/-- A material record of the patched constants file: identifier, display
name, description and keyword tags. -/
structure Material where
  id : String
  name : String
  description : String
  keywords : List String
deriving DecidableEq

/-- Embedding of the script's main loop over materials: each material not
already holding a profile is classified, its category looked up in the
table, and the rendered record appended. The first component is the list
of records rendered before the run ends; the second is `false` exactly
when a lookup failed (the `KeyError` aborting the loop at that material),
so a failed lookup leaves the records of the earlier materials already
rendered. -/
def runMaterials (existing : List String) (table : List (String × Profile)) :
    List Material → List String × Bool
  | [] => ([], true)
  | m :: ms =>
    if existing.contains m.id then runMaterials existing table ms
    else
      match lookupIn table (classify_material m.name m.description m.keywords) with
      | none => ([], false)
      | some p =>
        let r := runMaterials existing table ms
        (format_profile m.id p :: r.1, r.2)


theorem classifyFirst_mem (rules : List (List String × String)) (t : Chars) :
    classifyFirst rules t ∈ "concrete" :: rules.map Prod.snd := by
  induction rules with
  | nil => simp [classifyFirst]
  | cons r rest ih =>
    obtain ⟨pats, cat⟩ := r
    simp only [classifyFirst]
    split
    · simp
    · rw [List.mem_cons] at ih
      rcases ih with h | h
      · rw [h]; simp
      · simp only [List.map_cons, List.mem_cons]
        right; right; exact h

theorem classifyFirst_default (rules : List (List String × String)) (t : Chars)
    (h : rules.all (fun r => !(searchAny r.1 t)) = true) :
    classifyFirst rules t = "concrete" := by
  induction rules with
  | nil => rfl
  | cons r rest ih =>
    obtain ⟨pats, cat⟩ := r
    simp only [List.all_cons, Bool.and_eq_true, Bool.not_eq_true'] at h
    simp only [classifyFirst, h.1, if_neg]
    · exact ih (by simpa using h.2)

theorem classifyFirst_get (rules : List (List String × String)) (t : Chars) :
    ∀ i (hi : i < rules.length),
      searchAny (rules.get ⟨i, hi⟩).1 t = true →
      (∀ j (hj : j < i), searchAny (rules.get ⟨j, Nat.lt_trans hj hi⟩).1 t = false) →
      classifyFirst rules t = (rules.get ⟨i, hi⟩).2 := by
  induction rules with
  | nil => intro i hi; exact absurd hi (by simp)
  | cons r rest ih =>
    intro i hi hmatch hearlier
    obtain ⟨pats, cat⟩ := r
    cases i with
    | zero =>
      simp only [List.get] at hmatch ⊢
      simp only [classifyFirst, hmatch, if_true]
    | succ i' =>
      have h0 : searchAny pats t = false := by
        have := hearlier 0 (Nat.succ_pos i')
        simpa using this
      simp only [classifyFirst, h0]
      simp only [List.get] at hmatch ⊢
      exact ih i' (Nat.lt_of_succ_lt_succ hi) hmatch
        (fun j hj => by
          have := hearlier (j + 1) (Nat.succ_lt_succ hj)
          simpa using this)

theorem classify_eq_classifyFirst (name desc : String) (keywords : List String) :
    classify_material name desc keywords = classifyFirst RULES (blob name desc keywords) := rfl

/-- C1: the classifier's rule list is exactly the order timber, metal,
concrete, glass, ceramic, plastic, biobased, earth, stone, textile, paint,
and evaluation is first-match-wins: when the rule at index `i` matches the
material's text blob and no earlier rule matches, `classify_material`
returns rule `i`'s category. -/
theorem classify_rule_order_first_match :
    RULES.map Prod.snd =
      ["timber", "metal", "concrete", "glass", "ceramic", "plastic",
       "biobased", "earth", "stone", "textile", "paint"] ∧
    ∀ (name desc : String) (keywords : List String) (i : Nat) (hi : i < RULES.length),
      searchAny (RULES.get ⟨i, hi⟩).1 (blob name desc keywords) = true →
      (∀ j (hj : j < i),
        searchAny (RULES.get ⟨j, Nat.lt_trans hj hi⟩).1 (blob name desc keywords) = false) →
      classify_material name desc keywords = (RULES.get ⟨i, hi⟩).2 := by
  refine ⟨by decide, ?_⟩
  intro name desc keywords i hi hmatch hearlier
  rw [classify_eq_classifyFirst]
  exact classifyFirst_get RULES (blob name desc keywords) i hi hmatch hearlier

/-- C1 witness: a material whose text contains both "glass" and "steel"
classifies as metal (rule index 1), since the metal rule precedes the glass
rule and the only earlier rule (timber, index 0) does not match. -/
theorem classify_rule_order_first_match_witness :
    classify_material "steel-framed glass partition" "glass and steel panels" [] = "metal" := by
  have h := classify_rule_order_first_match.2 "steel-framed glass partition"
    "glass and steel panels" [] 1 (by decide) (by decide)
    (fun j hj => by
      have hj0 : j = 0 := by omega
      subst hj0
      exact (by decide :
        searchAny timberPats
          (blob "steel-framed glass partition" "glass and steel panels" []) = false))
  exact h

/-- C2: every category the classifier can return (each rule's category and
the default "concrete") has exactly one entry in the PROFILES table, and
for every input the returned category is a key of the table. -/
theorem classifier_categories_have_unique_profiles :
    ((("concrete" :: RULES.map Prod.snd).all
        (fun c => (PROFILES.map Prod.fst).count c = 1)) = true) ∧
    ∀ (name desc : String) (keywords : List String),
      classify_material name desc keywords ∈ PROFILES.map Prod.fst := by
  refine ⟨by decide, ?_⟩
  intro name desc keywords
  have h := classifyFirst_mem RULES (blob name desc keywords)
  rw [classify_eq_classifyFirst]
  have hsub : ("concrete" :: RULES.map Prod.snd) ⊆ PROFILES.map Prod.fst := by decide
  exact hsub h

/-- C4: classification is total with default "concrete": whenever no rule's
patterns match the material's text blob, `classify_material` returns
"concrete"; in particular name "widget" with empty description and no
keywords classifies as "concrete". -/
theorem classify_total_default :
    (∀ (name desc : String) (keywords : List String),
      RULES.all (fun r => !(searchAny r.1 (blob name desc keywords))) = true →
      classify_material name desc keywords = "concrete") ∧
    classify_material "widget" "" [] = "concrete" := by
  refine ⟨?_, by decide⟩
  intro name desc keywords h
  rw [classify_eq_classifyFirst]
  exact classifyFirst_default RULES (blob name desc keywords) h

/-- C4 witness: the input name "widget", empty description and empty
keyword list matches no rule and classifies as the default "concrete". -/
theorem classify_total_default_witness :
    RULES.all (fun r => !(searchAny r.1 (blob "widget" "" []))) = true ∧
    classify_material "widget" "" [] = "concrete" :=
  ⟨by decide, classify_total_default.1 "widget" "" [] (by decide)⟩

/-- C6: the concrete example: name "Oak Flooring", description "solid oak
boards", keywords ["wood", "flooring"] classifies as "timber", and the
looked-up profile's raw phase has impact 1 with confidence "high". -/
theorem oak_flooring_example :
    classify_material "Oak Flooring" "solid oak boards" ["wood", "flooring"] = "timber" ∧
    (lookupProfile (classify_material "Oak Flooring" "solid oak boards" ["wood", "flooring"])).map
      (fun p => (p.raw.impact, p.raw.confidence)) = some (1, "high") := by
  constructor
  · decide
  · decide

/-- C7: the classifier is deterministic and a pure function of its three
inputs: equal names, descriptions and keyword lists give equal
categories. -/
theorem classify_deterministic :
    ∀ (n₁ d₁ : String) (k₁ : List String) (n₂ d₂ : String) (k₂ : List String),
      n₁ = n₂ → d₁ = d₂ → k₁ = k₂ →
      classify_material n₁ d₁ k₁ = classify_material n₂ d₂ k₂ := by
  intro n₁ d₁ k₁ n₂ d₂ k₂ h1 h2 h3
  subst h1; subst h2; subst h3
  rfl

/-- C7 witness: two runs on the identical concrete input return the same
category. -/
theorem classify_deterministic_witness :
    classify_material "Oak Flooring" "solid oak boards" ["wood"] =
      classify_material "Oak Flooring" "solid oak boards" ["wood"] :=
  classify_deterministic "Oak Flooring" "solid oak boards" ["wood"]
    "Oak Flooring" "solid oak boards" ["wood"] rfl rfl rfl

/-- C3: for every entry of the PROFILES table, the record rendered by
`format_profile` reads back as exactly the table's seven
(phase, impact, confidence) triples, in the fixed order raw,
manufacturing, transport, installation, inUse, maintenance, endOfLife;
every impact lies in [1,5] and every confidence is one of high, medium,
low. -/
theorem format_profile_roundtrip :
    ∀ p ∈ PROFILES,
      extractPhases (format_profile p.1 p.2) = phaseReadings p.2 ∧
      (extractPhases (format_profile p.1 p.2)).map Prod.fst =
        ["raw", "manufacturing", "transport", "installation", "inUse", "maintenance", "endOfLife"] ∧
      (phaseReadings p.2).all
        (fun x => 1 ≤ x.2.1 && x.2.1 ≤ 5 &&
          (x.2.2 == "high" || x.2.2 == "medium" || x.2.2 == "low")) = true := by
  decide

/-- C3 witness: the timber entry's rendered record reads back as the
timber profile's values unchanged. -/
theorem format_profile_roundtrip_witness :
    (("timber",
        (⟨⟨1, "high"⟩, ⟨2, "high"⟩, ⟨2, "medium"⟩, ⟨2, "high"⟩, ⟨1, "high"⟩,
          ⟨2, "medium"⟩, ⟨1, "high"⟩⟩ : Profile)) ∈ PROFILES) ∧
    extractPhases (format_profile "timber"
        (⟨⟨1, "high"⟩, ⟨2, "high"⟩, ⟨2, "medium"⟩, ⟨2, "high"⟩, ⟨1, "high"⟩,
          ⟨2, "medium"⟩, ⟨1, "high"⟩⟩ : Profile)) =
      phaseReadings
        (⟨⟨1, "high"⟩, ⟨2, "high"⟩, ⟨2, "medium"⟩, ⟨2, "high"⟩, ⟨1, "high"⟩,
          ⟨2, "medium"⟩, ⟨1, "high"⟩⟩ : Profile) :=
  ⟨by decide,
    (format_profile_roundtrip
      ("timber",
        (⟨⟨1, "high"⟩, ⟨2, "high"⟩, ⟨2, "medium"⟩, ⟨2, "high"⟩, ⟨1, "high"⟩,
          ⟨2, "medium"⟩, ⟨1, "high"⟩⟩ : Profile)) (by decide)).1⟩

theorem sub_iff_occurs (p t : Chars) : sub p t = true ↔ p <:+: t := by
  induction t with
  | nil => simp [sub, List.isPrefixOf_iff_prefix]
  | cons c t' ih =>
    simp [sub, List.isPrefixOf_iff_prefix, List.infix_cons_iff, ih]

/-- C8: a material whose text contains "carpet", and which matches none of
the five rules preceding the plastic rule (timber, metal, concrete, glass,
ceramic), classifies as "plastic" and never as "textile": the pattern
"pet" of the plastic rule is a substring of "carpet", and the plastic rule
precedes the textile rule. -/
theorem carpet_classifies_plastic :
    ∀ (name desc : String) (keywords : List String),
      sub "carpet".data (blob name desc keywords) = true →
      searchAny timberPats (blob name desc keywords) = false →
      searchAny metalPats (blob name desc keywords) = false →
      searchAny concretePats (blob name desc keywords) = false →
      searchAny glassPats (blob name desc keywords) = false →
      searchAny ceramicPats (blob name desc keywords) = false →
      classify_material name desc keywords = "plastic" := by
  intro name desc keywords hcarpet h1 h2 h3 h4 h5
  have hpet : sub "pet".data (blob name desc keywords) = true := by
    rw [sub_iff_occurs] at hcarpet ⊢
    exact List.IsInfix.trans (by decide) hcarpet
  have hplastic : searchAny plasticPats (blob name desc keywords) = true := by
    simp only [searchAny, List.any_eq_true]
    exact ⟨"pet", by decide, hpet⟩
  simp [classify_material, h1, h2, h3, h4, h5, hplastic]

/-- C8 witness: the input name "carpet" (empty description and keywords)
matches no rule before the plastic rule, and classifies as "plastic". -/
theorem carpet_classifies_plastic_witness :
    sub "carpet".data (blob "carpet" "" []) = true ∧
    classify_material "carpet" "" [] = "plastic" :=
  ⟨by decide,
    carpet_classifies_plastic "carpet" "" [] (by decide) (by decide) (by decide)
      (by decide) (by decide) (by decide)⟩

theorem isPrefixOf_append_sep (p : Chars) (hp : ' ' ∉ p) :
    ∀ (x y : Chars), p.isPrefixOf (x ++ ' ' :: y) = p.isPrefixOf x := by
  induction p with
  | nil => intro x y; simp [List.isPrefixOf]
  | cons a p' ih =>
    intro x y
    have ha : a ≠ ' ' := fun h => hp (h ▸ List.mem_cons_self a p')
    have hp' : ' ' ∉ p' := fun h => hp (List.mem_cons_of_mem a h)
    cases x with
    | nil =>
      simp [List.isPrefixOf, ha]
    | cons c x' =>
      simp only [List.cons_append, List.isPrefixOf, List.append_eq]
      rw [ih hp' x' y]

theorem sub_append_sep (p : Chars) (hp : ' ' ∉ p) :
    ∀ (x y : Chars), sub p (x ++ ' ' :: y) = (sub p x || sub p y) := by
  intro x y
  induction x with
  | nil =>
    cases p with
    | nil => simp [sub, List.isPrefixOf]
    | cons a p' =>
      have ha : a ≠ ' ' := fun h => hp (h ▸ List.mem_cons_self a p')
      simp [sub, List.isPrefixOf, ha]
  | cons c x' ih =>
    simp only [List.cons_append, sub, List.append_eq]
    rw [show c :: (x' ++ ' ' :: y) = (c :: x') ++ ' ' :: y from rfl,
        isPrefixOf_append_sep p hp (c :: x') y, ih]
    simp [Bool.or_assoc]

theorem sub_joinSp (p : Chars) (hp : ' ' ∉ p) (hne : p ≠ []) :
    ∀ (ks : List Chars), sub p (joinSp ks) = ks.any (fun k => sub p k) := by
  intro ks
  induction ks with
  | nil =>
    cases p with
    | nil => exact absurd rfl hne
    | cons a p' => simp [joinSp, sub, List.isPrefixOf]
  | cons k ks ih =>
    cases ks with
    | nil => simp [joinSp]
    | cons k2 ks' =>
      rw [show joinSp (k :: k2 :: ks') = k ++ ' ' :: joinSp (k2 :: ks') from rfl,
          sub_append_sep p hp k (joinSp (k2 :: ks')), ih]
      simp

theorem any_perm {α : Type} (f : α → Bool) {l l' : List α} (h : l.Perm l') :
    l.any f = l'.any f := by
  induction h with
  | nil => rfl
  | cons a h ih => simp [List.any_cons, ih]
  | swap a b l => simp [List.any_cons, Bool.or_left_comm]
  | trans h1 h2 ih1 ih2 => exact ih1.trans ih2

theorem toLower_space : Char.toLower ' ' = ' ' := by decide

theorem map_toLower_joinSp (ks : List Chars) :
    (joinSp ks).map Char.toLower = joinSp (ks.map (List.map Char.toLower)) := by
  induction ks with
  | nil => rfl
  | cons k ks ih =>
    cases ks with
    | nil => rfl
    | cons k2 ks' =>
      simp only [joinSp, List.map_cons, List.map_append, List.map, toLower_space] at ih ⊢
      rw [ih]

theorem blob_decomp (n d : String) (ks : List String) :
    blob n d ks =
      n.data.map Char.toLower ++ ' ' :: d.data.map Char.toLower ++ ' ' ::
        joinSp ((ks.map String.data).map (List.map Char.toLower)) := by
  simp [blob, List.map_append, map_toLower_joinSp, toLower_space]

theorem sub_blob_perm (p : Chars) (hp : ' ' ∉ p) (hne : p ≠ [])
    (n d : String) {ks ks' : List String} (h : ks.Perm ks') :
    sub p (blob n d ks) = sub p (blob n d ks') := by
  rw [blob_decomp, blob_decomp,
      sub_append_sep p hp, sub_append_sep p hp,
      sub_append_sep p hp, sub_append_sep p hp,
      sub_joinSp p hp hne, sub_joinSp p hp hne]
  have hperm := (h.map String.data).map (List.map Char.toLower)
  rw [any_perm _ hperm]

theorem searchAny_congr_sub (pats : List String) (t t' : Chars)
    (h : ∀ p ∈ pats, sub p.data t = sub p.data t') :
    searchAny pats t = searchAny pats t' := by
  unfold searchAny
  induction pats with
  | nil => rfl
  | cons p ps ih =>
    simp only [List.any_cons]
    rw [h p (by simp), ih (fun q hq => h q (by simp [hq]))]

theorem classifyFirst_congr (rules : List (List String × String)) (t t' : Chars)
    (h : ∀ r ∈ rules, searchAny r.1 t = searchAny r.1 t') :
    classifyFirst rules t = classifyFirst rules t' := by
  induction rules with
  | nil => rfl
  | cons r rest ih =>
    obtain ⟨pats, cat⟩ := r
    simp only [classifyFirst]
    rw [h (pats, cat) (by simp)]
    split
    · rfl
    · exact ih (fun q hq => h q (by simp [hq]))

/-- C9: classification is invariant under permutation of the keyword list:
the keywords enter the text blob joined by single spaces, and no rule
pattern contains a space, so a pattern matches the blob exactly when it
matches the name, the description, or one individual keyword - a condition
unaffected by keyword order. -/
theorem classify_keyword_perm_invariant :
    ∀ (name desc : String) (ks ks' : List String), ks.Perm ks' →
      classify_material name desc ks = classify_material name desc ks' := by
  intro n d ks ks' h
  rw [classify_eq_classifyFirst, classify_eq_classifyFirst]
  apply classifyFirst_congr
  intro r hr
  apply searchAny_congr_sub
  intro p hps
  have hall : ∀ r ∈ RULES, ∀ p ∈ r.1, ' ' ∉ p.data ∧ p.data ≠ [] := by decide
  exact sub_blob_perm p.data (hall r hr p hps).1 (hall r hr p hps).2 n d h

/-- C9 witness: swapping two keywords leaves the category unchanged on a
concrete input. -/
theorem classify_keyword_perm_invariant_witness :
    List.Perm ["wool", "steel"] ["steel", "wool"] ∧
    classify_material "rug" "woven floor cover" ["wool", "steel"] =
      classify_material "rug" "woven floor cover" ["steel", "wool"] :=
  ⟨List.Perm.swap "steel" "wool" [],
    classify_keyword_perm_invariant "rug" "woven floor cover" ["wool", "steel"]
      ["steel", "wool"] (List.Perm.swap "steel" "wool" [])⟩

theorem lower_keywords_congr {ks ks' : List String}
    (h : List.Forall₂
      (fun a b : String => a.data.map Char.toLower = b.data.map Char.toLower) ks ks') :
    (ks.map String.data).map (List.map Char.toLower) =
      (ks'.map String.data).map (List.map Char.toLower) := by
  induction h with
  | nil => rfl
  | cons h1 h2 ih => simp only [List.map_cons, h1, ih]

/-- C10: classification is case-insensitive: inputs whose name, description
and keywords agree up to letter case (equal images under lowercasing)
classify identically, since the text blob is lowercased before any pattern
is tested. -/
theorem classify_case_insensitive :
    ∀ (n n' d d' : String) (ks ks' : List String),
      n.data.map Char.toLower = n'.data.map Char.toLower →
      d.data.map Char.toLower = d'.data.map Char.toLower →
      List.Forall₂
        (fun a b : String => a.data.map Char.toLower = b.data.map Char.toLower) ks ks' →
      classify_material n d ks = classify_material n' d' ks' := by
  intro n n' d d' ks ks' hn hd hk
  have hblob : blob n d ks = blob n' d' ks' := by
    rw [blob_decomp, blob_decomp, hn, hd, lower_keywords_congr hk]
  rw [classify_eq_classifyFirst, classify_eq_classifyFirst, hblob]

/-- C10 witness: changing letter case in the name, description and a
keyword leaves the category unchanged on a concrete input. -/
theorem classify_case_insensitive_witness :
    ("OAK Floor".data.map Char.toLower = "oak floor".data.map Char.toLower) ∧
    classify_material "OAK Floor" "Solid OAK boards" ["WOOD"] =
      classify_material "oak floor" "solid oak boards" ["wood"] :=
  ⟨by decide,
    classify_case_insensitive "OAK Floor" "oak floor" "Solid OAK boards" "solid oak boards"
      ["WOOD"] ["wood"] (by decide) (by decide)
      (List.Forall₂.cons (by decide) List.Forall₂.nil)⟩

/-- C5 counterexample: the script performs no startup validation of the
category-to-profile table. With a table lacking the timber entry and a
material list whose first material classifies to a present category and
whose second classifies to timber, the run renders the first material's
record before failing at the second: the failure is at call time
per-material, not a rejection before processing. -/
theorem profile_lookup_startup_counterexample :
    ¬ (∀ (table : List (String × Profile)) (mats : List Material),
        (∃ m ∈ mats,
          lookupIn table (classify_material m.name m.description m.keywords) = none) →
        (runMaterials [] table mats).1 = []) := by
  intro hP
  have h := hP (PROFILES.filter (fun e => !(e.1 == "timber")))
    [⟨"m1", "steel beam", "", []⟩, ⟨"m2", "oak board", "", []⟩]
    ⟨⟨"m2", "oak board", "", []⟩, by decide, by decide⟩
  exact absurd h (by decide)

/-- C5 (amended): a category absent from the profile table makes the
lookup fail (the `KeyError`, modelled as `none`), never silently
defaulted; with the script's actual PROFILES table the classifier's every
output has a profile, so the lookup never fails; but the failure for an
incomplete table occurs at call time per-material (one record is rendered
before the failing second material), there being no startup validation. -/
theorem profile_lookup_call_time_fatal :
    (∀ c : String, c ∉ PROFILES.map Prod.fst → lookupProfile c = none) ∧
    (∀ (name desc : String) (keywords : List String),
      (lookupProfile (classify_material name desc keywords)).isSome = true) ∧
    (runMaterials [] (PROFILES.filter (fun e => !(e.1 == "timber")))
        [⟨"m1", "steel beam", "", []⟩, ⟨"m2", "oak board", "", []⟩]).1.length = 1 := by
  refine ⟨?_, ?_, by decide⟩
  · intro c hc
    unfold lookupProfile lookupIn
    have hnone : PROFILES.find? (fun e => e.1 == c) = none := by
      rw [List.find?_eq_none]
      intro x hx
      simp only [Bool.not_eq_true, beq_eq_false_iff_ne, ne_eq]
      intro hxc
      exact hc (hxc ▸ List.mem_map_of_mem Prod.fst hx)
    rw [hnone]
  · intro n d k
    have hmem : classify_material n d k ∈ PROFILES.map Prod.fst := by
      rw [classify_eq_classifyFirst]
      have h := classifyFirst_mem RULES (blob n d k)
      have hsub : ("concrete" :: RULES.map Prod.snd) ⊆ PROFILES.map Prod.fst := by decide
      exact hsub h
    obtain ⟨e, he, hfst⟩ := List.mem_map.mp hmem
    unfold lookupProfile lookupIn
    cases hfind : PROFILES.find? (fun e2 => e2.1 == classify_material n d k) with
    | some x => rfl
    | none =>
      rw [List.find?_eq_none] at hfind
      have hx := hfind e he
      simp [hfst] at hx

/-- C5 witness: a category absent from the table ("bogus") makes the
lookup return the error value, not a default profile. -/
theorem profile_lookup_call_time_fatal_witness :
    ("bogus" ∉ PROFILES.map Prod.fst) ∧ lookupProfile "bogus" = none :=
  ⟨by decide, profile_lookup_call_time_fatal.1 "bogus" (by decide)⟩
